import Mathlib

/-!
Verification of the patch-application engine of the `headless-cline` repository
(`crates/cline-core/src/services/diff/`): the SearchReplace strategy
(`strategies/search_replace.rs`) and the NewUnified strategy
(`strategies/new_unified/{mod,search_strategies,edit_strategies,types}.rs`).

Modelling conventions:
* Rust `&str` / `String` values are modelled as `List Char` (`Str`), so that all
  definitions reduce inside the kernel.  Only the ASCII fragment of
  `char::is_whitespace` is modelled; no input in this development contains
  non-ASCII whitespace.
* Rust `f64` values are modelled as exact fractions (`Q` below): every constant
  appearing in the engine (1.0, 0.8, 0.07, 0.05, 0.3, 0.97, …) and every
  operation on confidences (add, sub, mul, div, min, max, compare) is exact at
  these magnitudes, so rounding never changes a comparison made by the code.
  Fractions are never normalised (all comparisons cross-multiply), which keeps
  every operation a few integer multiplications — kernel-computable.
* Rust functions that can panic (slice indexing out of bounds, `&line[1..]` on
  an empty line) are modelled with an `Option` result, `none` meaning panic.
* The git-fallback path shells out to `git`; the outcomes of the subprocess
  steps and file operations are modelled by an oracle record `GitEnv`, and the
  function is a pure function of hunk, content and oracle.
* `strsim::normalized_levenshtein` is modelled with Mathlib's `levenshtein`
  (unit costs), which matches the crate's definition
  `1 - distance a b / max |a| |b|` (with `1.0` when both strings are empty).
-/

set_option maxRecDepth 100000
set_option maxHeartbeats 2000000

namespace Cline

/-! ## Exact fractions modelling `f64` -/

/-- An exact fraction `num / den` modelling an `f64` value.  Invariant (not
enforced by the type): every fraction built by the engine has a positive
denominator. -/
structure Q where
  num : Int
  den : Int
deriving DecidableEq, Repr

def q0 : Q := ⟨0, 1⟩

def q1 : Q := ⟨1, 1⟩

def qAdd (a b : Q) : Q := ⟨a.num * b.den + b.num * a.den, a.den * b.den⟩

def qSub (a b : Q) : Q := ⟨a.num * b.den - b.num * a.den, a.den * b.den⟩

def qMul (a b : Q) : Q := ⟨a.num * b.num, a.den * b.den⟩

def qDiv (a b : Q) : Q := ⟨a.num * b.den, a.den * b.num⟩

/-- Model of `a <= b` on values (denominators positive). -/
def qLeB (a b : Q) : Bool := decide (a.num * b.den ≤ b.num * a.den)

/-- Model of `a < b` on values (denominators positive). -/
def qLtB (a b : Q) : Bool := decide (a.num * b.den < b.num * a.den)

/-- Value equality (an `f64` `==`): cross-multiplied. -/
def qEqB (a b : Q) : Bool := decide (a.num * b.den = b.num * a.den)

/-- Model of `f64::min(self, other)`. -/
def qMin (a b : Q) : Q := if qLeB a b then a else b

/-- Model of `f64::max(self, other)`. -/
def qMax (a b : Q) : Q := if qLtB a b then b else a

/-! ## Strings as character lists -/

abbrev Str := List Char

/-- Characters accepted by the modelled (ASCII) fragment of
`char::is_whitespace`. -/
def isWS (c : Char) : Bool :=
  c = ' ' ∨ c = '\t' ∨ c = '\n' ∨ c = '\r' ∨ c = '\x0b' ∨ c = '\x0c'

def strLit (s : String) : Str := s.data

/-- Drop one trailing carriage return (`str::lines` behaviour at a `\r\n`). -/
def stripCRrev (acc : Str) : Str :=
  match acc with
  | '\r' :: t => t
  | _ => acc

/-- Worker for `rustLines`: `acc` holds the current line reversed. -/
def rustLinesGo : Str → Str → List Str
  | [], acc => [acc.reverse]
  | c :: rest, acc =>
    if c = '\n' then (stripCRrev acc).reverse :: rustLinesGo rest []
    else rustLinesGo rest (c :: acc)

/-- Rust `str::lines()`: split at `\n` (eating a preceding `\r`), a trailing
line terminator does not produce a final empty line, and `"".lines()` is
empty. -/
def rustLines (s : Str) : List Str :=
  if s = [] then []
  else
    let ls := rustLinesGo s []
    if s.getLast? = some '\n' then ls.dropLast else ls

/-- Join with `"\n"` (Rust `[\u{2026}].join("\n")` / building a multi-line string). -/
def joinNL : List Str → Str
  | [] => []
  | [l] => l
  | l :: rest => l ++ '\n' :: joinNL rest

/-- Model of `pat` is a prefix of `s`. -/
def strStarts : Str → Str → Bool
  | [], _ => true
  | _ :: _, [] => false
  | p :: ps, c :: cs => p = c && strStarts ps cs

/-- Does `pat` occur in `s` at position `i`? -/
def occursAt (pat s : Str) (i : Nat) : Bool := strStarts pat (s.drop i)

/-- First occurrence of `pat` in `s` at a position `≥ start` (Rust
`str::find`, restricted to a suffix). -/
def substrFindFrom (pat s : Str) (start : Nat) : Option Nat :=
  (List.range' start (s.length + 1 - start)).find? (fun i => occursAt pat s i)

def containsStr (pat s : Str) : Bool := (substrFindFrom pat s 0).isSome

/-- Rust `str::trim` (both ends, modelled whitespace). -/
def trimStr (s : Str) : Str :=
  ((s.dropWhile isWS).reverse.dropWhile isWS).reverse

/-- Rust `str::replace(char::is_whitespace, " ")`: each whitespace character
becomes one space (runs are NOT collapsed). -/
def replaceWS (s : Str) : Str := s.map (fun c => if isWS c then ' ' else c)

/-- Number of non-overlapping occurrences of `pat` in `s`, counting at most 3
(the engine's `re.find_iter(..).take(3).count()` on the escaped literal).
Empty matches advance by one character, as `regex`'s `find_iter` does. -/
def countOccCapGo (pat s : Str) : Nat → Nat → Nat → Nat
  | _, cnt, 0 => cnt
  | pos, cnt, fuel + 1 =>
    if cnt = 3 then cnt
    else
      match substrFindFrom pat s pos with
      | none => cnt
      | some i => countOccCapGo pat s (i + max pat.length 1) (cnt + 1) fuel

def countOccCap (pat s : Str) : Nat := countOccCapGo pat s 0 0 (s.length + 2)

/-- Decimal rendering of a `usize` (Rust `format!("{}", n)`). -/
def natToStr (n : Nat) : Str := Nat.toDigits 10 n

/-- Decimal rendering of an `i32`. -/
def intToStr (i : Int) : Str :=
  if i < 0 then '-' :: natToStr i.natAbs else natToStr i.toNat

/-- Model of `(q * 100.0) as i32`: multiply by 100 and truncate toward zero. -/
def pctI32 (q : Q) : Int := Int.tdiv (q.num * 100) q.den

/-! ## Levenshtein distance (`strsim`) -/

/-- Unit-cost Levenshtein distance between two character lists
(`strsim::levenshtein`). -/
def levDist (a b : Str) : Nat := levenshtein Levenshtein.defaultCost a b

/-- Model of `strsim::normalized_levenshtein`:
`1.0` for two empty strings, else `1 - distance / max |a| |b|`. -/
def normalized_levenshtein (a b : Str) : Q :=
  if a = [] ∧ b = [] then q1
  else qSub q1 (qDiv ⟨(levDist a b : Int), 1⟩ ⟨((max a.length b.length : Nat) : Int), 1⟩)

/-! ## Shared diff result type (`services/diff/types.rs`) -/

structure MatchedRange where
  start : Nat
  stop : Nat
deriving DecidableEq, Repr

structure DiffResultDetails where
  similarity : Option Q
  threshold : Option Q
  matched_range : Option MatchedRange
  search_content : Option Str
  best_match : Option Str
deriving DecidableEq, Repr

inductive DiffResult where
  | success (content : Str)
  | failure (error : Str) (details : Option DiffResultDetails)
deriving DecidableEq, Repr

/-! ## SearchReplaceDiffStrategy (`strategies/search_replace.rs`) -/

structure SearchReplaceDiffStrategy where
  fuzzy_threshold : Q
  buffer_lines : Nat
deriving DecidableEq, Repr

/-- Model of `SearchReplaceDiffStrategy::new` (`BUFFER_LINES = 20`). -/
def SearchReplaceDiffStrategy.new (fuzzyThreshold : Option Q) (bufferLines : Option Nat) :
    SearchReplaceDiffStrategy :=
  ⟨fuzzyThreshold.getD q1, bufferLines.getD 20⟩

/-- Model of `SearchReplaceDiffStrategy::get_similarity`: `1.0` for an empty search,
else map every whitespace character to a space, trim, compare, and fall back
to `normalized_levenshtein` of the two normalised strings. -/
def get_similarity (original search : Str) : Q :=
  if search = [] then q1
  else
    let normalizedOriginal := trimStr (replaceWS original)
    let normalizedSearch := trimStr (replaceWS search)
    if normalizedOriginal = normalizedSearch then q1
    else normalized_levenshtein normalizedOriginal normalizedSearch

def srStartMark : Str := strLit "<<<<<<< SEARCH\n"

def srSepMark : Str := strLit "\n=======\n"

def srEndMark : Str := strLit "\n>>>>>>> REPLACE"

/-- Backtracking over `=======` separators: the regex
`<<<<<<< SEARCH\n([\s\S]*?)\n=======\n([\s\S]*?)\n>>>>>>> REPLACE` takes the
first separator position (lazy capture) that is followed by an end marker. -/
def srFindRest (s : Str) (start : Nat) : Nat → Option (Nat × Nat)
  | 0 => none
  | fuel + 1 =>
    match substrFindFrom srSepMark s start with
    | none => none
    | some j =>
      match substrFindFrom srEndMark s (j + srSepMark.length) with
      | some k => some (j, k)
      | none => srFindRest s (j + 1) fuel

/-- The regex capture of `apply_diff`: leftmost `<<<<<<< SEARCH\n`, lazily
matched search and replace sections.  (Matching can never succeed from a later
start marker if it fails from the first one, since the separator constraint
only requires positions `≥ start + 15`.) -/
def parseSearchReplace (s : Str) : Option (Str × Str) :=
  match substrFindFrom srStartMark s 0 with
  | none => none
  | some i =>
    match srFindRest s (i + srStartMark.length) (s.length + 1) with
    | none => none
    | some (j, k) =>
      some ((s.drop (i + srStartMark.length)).take (j - (i + srStartMark.length)),
            (s.drop (j + srSepMark.length)).take (k - (j + srSepMark.length)))

def srMsgMissing : Str :=
  strLit "Invalid diff format - missing required SEARCH/REPLACE sections"

def srMsgEmptyNeedStart : Str :=
  strLit "Empty search content requires start_line to be specified"

def srMsgEmptySame (startLine endLine : Option Nat) : Str :=
  strLit "Empty search content requires start_line and end_line to be the same (got " ++
    natToStr (startLine.getD 0) ++ strLit "-" ++ natToStr (endLine.getD 0) ++ strLit ")"

def srMsgRange (s e len : Nat) : Str :=
  strLit "Line range " ++ natToStr s ++ strLit "-" ++ natToStr e ++
    strLit " is invalid (file has " ++ natToStr len ++ strLit " lines)"

def srMsgNoMatch (score threshold : Q) : Str :=
  strLit "No sufficiently similar match found (" ++ intToStr (pctI32 score) ++
    strLit "% similar, needs " ++ intToStr (pctI32 threshold) ++ strLit "%)"

/-- The scan over candidate windows (`for i in search_range_start..=\u{2026}`),
accumulating the best index and score.  `none` models the Rust panic when the
window `original_lines[i..i + search_lines.len()]` is out of bounds. -/
def srScan (origLines : List Str) (searchContent : Str) (searchLen : Nat) :
    List Nat → Option Nat × Q → Option (Option Nat × Q)
  | [], best => some best
  | i :: rest, (bestIdx, bestScore) =>
    if i + searchLen ≤ origLines.length then
      let windowStr := joinNL ((origLines.drop i).take searchLen)
      let similarity := get_similarity windowStr searchContent
      if qLtB bestScore similarity then
        srScan origLines searchContent searchLen rest (some i, similarity)
      else srScan origLines searchContent searchLen rest (bestIdx, bestScore)
    else none

/-- Rust `a..=b` as a list (empty when `a > b`). -/
def srIndexRange (a b : Nat) : List Nat :=
  if a ≤ b then List.range' a (b + 1 - a) else []

/-- The final splice on success: lines before the window, the replace lines,
the lines after the window. -/
def srSplice (origLines : List Str) (replaceContent : Str) (idx searchLen : Nat) : Str :=
  joinNL (origLines.take idx ++ rustLines replaceContent ++ origLines.drop (idx + searchLen))

/-- Failure or splice after the search (`if best_match_index.is_none() ||
best_match_score < self.fuzzy_threshold`). -/
def srFinish (threshold : Q) (origLines : List Str) (searchContent replaceContent : Str)
    (searchLen : Nat) (best : Option Nat × Q) : DiffResult :=
  match best with
  | (none, bestScore) =>
    .failure (srMsgNoMatch bestScore threshold)
      (some ⟨some bestScore, some threshold, none, some searchContent, none⟩)
  | (some idx, bestScore) =>
    if qLtB bestScore threshold then
      .failure (srMsgNoMatch bestScore threshold)
        (some ⟨some bestScore, some threshold, none, some searchContent, none⟩)
    else .success (srSplice origLines replaceContent idx searchLen)

/-- The scan phase of `apply_diff` (runs only when the hinted window did not
already match), followed by `srFinish`. -/
def srScanAndFinish (threshold : Q) (origLines : List Str)
    (searchContent replaceContent : Str) (searchLen : Nat)
    (startLine endLine : Option Nat) (best : Option Nat × Q) : Option DiffResult :=
  match best.1 with
  | some _ => some (srFinish threshold origLines searchContent replaceContent searchLen best)
  | none =>
    let searchRangeStart := match startLine with
      | some l => l - 1
      | none => 0
    let searchRangeEnd := match endLine with
      | some e => e
      | none => origLines.length
    match srScan origLines searchContent searchLen
        (srIndexRange searchRangeStart (searchRangeEnd - searchLen)) best with
    | none => none
    | some best2 =>
      some (srFinish threshold origLines searchContent replaceContent searchLen best2)

/-- Model of `SearchReplaceDiffStrategy::apply_diff`.  `none` models a panic (the
window slice in the scan can index past the end of `original_lines`). -/
def SearchReplaceDiffStrategy.apply_diff (self : SearchReplaceDiffStrategy)
    (originalContent diffContent : Str) (startLine endLine : Option Nat) :
    Option DiffResult :=
  match parseSearchReplace diffContent with
  | none => some (.failure srMsgMissing none)
  | some (searchContent, replaceContent) =>
    let originalLines := rustLines originalContent
    let searchLines := rustLines searchContent
    if searchLines = [] ∧ startLine = none then
      some (.failure srMsgEmptyNeedStart none)
    else if searchLines = [] ∧ ¬ startLine = endLine then
      some (.failure (srMsgEmptySame startLine endLine) none)
    else
      match startLine, endLine with
      | some s, some e =>
        let startIdx := s - 1
        let endIdx := min e originalLines.length
        if startIdx ≥ originalLines.length ∨ endIdx > originalLines.length ∨
            startIdx > endIdx then
          some (.failure (srMsgRange s e originalLines.length) none)
        else
          let window := (originalLines.drop startIdx).take (endIdx - startIdx)
          let similarity := get_similarity (joinNL window) searchContent
          let best : Option Nat × Q :=
            if qLeB self.fuzzy_threshold similarity then (some startIdx, similarity)
            else (none, q0)
          srScanAndFinish self.fuzzy_threshold originalLines searchContent replaceContent
            searchLines.length startLine endLine best
      | _, _ =>
        srScanAndFinish self.fuzzy_threshold originalLines searchContent replaceContent
          searchLines.length startLine endLine (none, q0)

/-! ## NewUnified edit model (`strategies/new_unified/types.rs`) -/

inductive ChangeType where
  | context
  | add
  | remove
deriving DecidableEq, Repr

structure Change where
  change_type : ChangeType
  content : Str
  indent : Str
  original_line : Option Str
deriving DecidableEq, Repr

structure Hunk where
  changes : List Change
deriving DecidableEq, Repr

structure SearchResult where
  index : Int
  confidence : Q
  strategy : Str
deriving DecidableEq, Repr

structure EditResult where
  confidence : Q
  result : List Str
  strategy : Str
deriving DecidableEq, Repr

def isContextB (c : Change) : Bool :=
  match c.change_type with
  | .context => true
  | _ => false

/-- Model of `matches!(c.change_type, ChangeType::Add | ChangeType::Remove)` over a list. -/
def hasAddRemove (cs : List Change) : Bool :=
  cs.any (fun c =>
    match c.change_type with
    | .add => true
    | .remove => true
    | _ => false)

/-! ## NewUnified parsing (`strategies/new_unified/mod.rs`) -/

/-- Model of `content.matches(|c| c.is_whitespace()).next()`: the first whitespace
character anywhere in the string, as a (one-character) string. -/
def firstWSChar (s : Str) : Str :=
  match s.find? isWS with
  | some c => [c]
  | none => []

/-- One diff line to a `Change`.  `none` models the panic of `&line[1..]` on an
empty line.  Note the source computes `indent` as the FIRST whitespace
character anywhere in `content` (a one-character string) and then drops
`indent.len()` characters from the front of `content` — it does not strip a
whitespace prefix. -/
def mkChange (line : Str) : Option Change :=
  if line = [] then none
  else
    let content := line.drop 1
    let indent := firstWSChar content
    let trimmedContent := content.drop indent.length
    some (match line.head? with
      | some ' ' => ⟨.context, trimmedContent, indent, some content⟩
      | some '+' => ⟨.add, trimmedContent, indent, some content⟩
      | some '-' => ⟨.remove, trimmedContent, indent, some content⟩
      | _ => ⟨.context, ' ' :: trimmedContent, indent, some content⟩)

/-- The `MAX_CONTEXT_LINES = 6` trimming applied when a hunk is closed by the
NEXT `@@` marker: cut to six context lines before the first and after the last
non-context change. -/
def trimChanges (cs : List Change) : List Change :=
  let j0 := cs.findIdx (fun c => ! isContextB c)
  let startIdx := if j0 < cs.length then j0 - 6 else 0
  let r := cs.reverse.findIdx (fun c => ! isContextB c)
  let endIdx := if r < cs.length then min (cs.length - 1 - r + 6) (cs.length - 1)
    else cs.length - 1
  (cs.take (endIdx + 1)).drop startIdx

structure PUState where
  hunks : List Hunk
  current : Option (List Change)
deriving DecidableEq, Repr

/-- One line of the parse loop of `parse_unified_diff`. -/
def puStep (st : PUState) (line : Str) : Option PUState :=
  if strStarts (strLit "@@") line then
    some ⟨(match st.current with
      | some cs => if hasAddRemove cs then st.hunks ++ [⟨trimChanges cs⟩] else st.hunks
      | none => st.hunks), some []⟩
  else
    match st.current with
    | some cs => (mkChange line).map (fun c => ⟨st.hunks, some (cs ++ [c])⟩)
    | none => some st

/-- Model of `NewUnifiedDiffStrategy::parse_unified_diff`.  `none` models a panic (an
empty line inside a hunk).  Note the final open hunk, flushed after the loop,
is pushed WITHOUT the context trimming. -/
def parse_unified_diff (diff : Str) : Option (List Hunk) :=
  let lines := rustLines diff
  let rest := lines.dropWhile (fun l => ! strStarts (strLit "@@") l)
  (rest.foldlM puStep ⟨[], none⟩).map (fun st =>
    match st.current with
    | some cs => if hasAddRemove cs then st.hunks ++ [⟨cs⟩] else st.hunks
    | none => st.hunks)

/-! ## NewUnified hunk splitting (`split_hunk`, `MAX_CONTEXT_LINES = 3`) -/

structure SplitState where
  result : List Hunk
  current : Option (List Change)
  contextBefore : List Change
  contextAfter : List Change
deriving DecidableEq, Repr

def splitStep (st : SplitState) (c : Change) : SplitState :=
  match c.change_type with
  | .context =>
    match st.current with
    | none =>
      let cb := st.contextBefore ++ [c]
      { st with contextBefore := if cb.length > 3 then cb.drop 1 else cb }
    | some cur =>
      let ca := st.contextAfter ++ [c]
      if ca.length > 3 then
        { result := st.result ++ [⟨cur ++ ca⟩], current := none,
          contextBefore := ca, contextAfter := [] }
      else { st with contextAfter := ca }
  | _ =>
    let st' := match st.current with
      | none => { st with current := some st.contextBefore, contextAfter := ([] : List Change) }
      | some cur =>
        if st.contextAfter ≠ [] then
          { st with current := some (cur ++ st.contextAfter), contextAfter := ([] : List Change) }
        else st
    match st'.current with
    | some cur => { st' with current := some (cur ++ [c]) }
    | none => st'

/-- Model of `NewUnifiedDiffStrategy::split_hunk`. -/
def split_hunk (h : Hunk) : List Hunk :=
  let st := h.changes.foldl splitStep ⟨[], none, [], []⟩
  match st.current with
  | some cur =>
    st.result ++ [⟨if st.contextAfter ≠ [] then cur ++ st.contextAfter else cur⟩]
  | none => st.result

/-! ## NewUnified search engine (`strategies/new_unified/search_strategies.rs`) -/

/-- Model of `prepare_search_string`: the `original_line`s of the context and remove
changes, joined. -/
def prepare_search_string (changes : List Change) : Str :=
  joinNL ((changes.filter (fun c =>
    match c.change_type with
    | .context => true
    | .remove => true
    | _ => false)).filterMap (fun c => c.original_line))

def evaluate_similarity (original modified : Str) : Q :=
  normalized_levenshtein original modified

/-- Model of `get_adaptive_threshold` (`LARGE_FILE_THRESHOLD = 1000`): relaxed by 0.07
with floor 0.8 when `content_length` exceeds 1000.  `content_length` is the
line count of the CANDIDATE text handed to context validation. -/
def get_adaptive_threshold (contentLength : Nat) (baseThreshold : Q) : Q :=
  if contentLength ≤ 1000 then baseThreshold
  else qMax (qSub baseThreshold ⟨7, 100⟩) ⟨4, 5⟩

/-- Model of `evaluate_content_uniqueness` (`UNIQUE_CONTENT_BOOST` consumer): the
fraction of distinct search lines that occur once or twice in `content`
(`find_iter(..).take(3).count().checked_sub(1) <= Some(1)`; the escaped regex
always compiles, so the `if let Ok(re)` is always taken). -/
def evaluate_content_uniqueness (searchStr : Str) (content : List Str) : Q :=
  let searchLines := rustLines searchStr
  let uniqueLines := searchLines.dedup
  let contentStr := joinNL content
  let uniqueCount := (uniqueLines.filter (fun line =>
    let c := countOccCap line contentStr
    decide (1 ≤ c ∧ c - 1 ≤ 1))).length
  qDiv ⟨(uniqueCount : Int), 1⟩ ⟨(uniqueLines.length : Int), 1⟩

/-- Model of `validate_context_lines`: similarity of the non-`-`-prefixed search lines
against the candidate, gated by the adaptive threshold computed from the
CANDIDATE's line count, plus the uniqueness boost (`0.05`); below the
threshold the score is penalised to 30%. -/
def validate_context_lines (searchStr content : Str) (confidenceThreshold : Q) : Q :=
  let contextLines := (rustLines searchStr).filter (fun l => ! strStarts (strLit "-") l)
  let similarity := evaluate_similarity (joinNL contextLines) content
  let threshold := get_adaptive_threshold (rustLines content).length confidenceThreshold
  let uniquenessScore := evaluate_content_uniqueness searchStr (rustLines content)
  let uniquenessBoost := qMul uniquenessScore ⟨5, 100⟩
  if qLtB similarity threshold then qAdd (qMul similarity ⟨3, 10⟩) uniquenessBoost
  else qAdd similarity uniquenessBoost

/-- Model of `(0..content.len()).step_by(step)`. -/
def stepRange (n step : Nat) : List Nat :=
  (List.range n).filter (fun i => i % step = 0)

/-- Model of `create_overlapping_windows` (`DEFAULT_OVERLAP_SIZE = 3`,
`MAX_WINDOW_SIZE = 500`).  (For `search_size = 0` the source underflows a
`usize`; no claim exercises that case and the model uses saturating
subtraction there.) -/
def create_overlapping_windows (content : List Str) (searchSize : Nat)
    (overlapSize : Option Nat) : List (List Str × Nat) :=
  let overlap := overlapSize.getD 3
  let effectiveWindowSize := max searchSize (min searchSize 500 * 2)
  let effectiveOverlap := min overlap (effectiveWindowSize - 1)
  let stepSize := max (effectiveWindowSize - effectiveOverlap) 1
  (stepRange content.length stepSize).filterMap (fun i =>
    let windowContent := (content.drop i).take effectiveWindowSize
    if windowContent.length ≥ searchSize then some (windowContent, i) else none)

/-- The window loop of `find_exact_match`.  On a substring hit the source
slices `window[exact_match..exact_match + search_lines.len()]` where
`exact_match` is a CHARACTER index into the joined window used as a LINE
index; `none` models the panic when that slice is out of bounds. -/
def exactLoop (searchStr : Str) (searchLinesLen startIndex : Nat) (thr : Q) :
    List (List Str × Nat) → SearchResult → Option SearchResult
  | [], best => some best
  | (window, windowIndex) :: rest, best =>
    let windowStr := joinNL window
    match substrFindFrom searchStr windowStr 0 with
    | none => exactLoop searchStr searchLinesLen startIndex thr rest best
    | some exactMatch =>
      if exactMatch + searchLinesLen ≤ window.length then
        let matchedContent := joinNL ((window.drop exactMatch).take searchLinesLen)
        let similarity := evaluate_similarity searchStr matchedContent
        let contextSimilarity := validate_context_lines searchStr matchedContent thr
        let confidence := qMin similarity contextSimilarity
        let best' := if qLtB best.confidence confidence then
            ⟨((startIndex + windowIndex + exactMatch : Nat) : Int), confidence,
              strLit "exact"⟩
          else best
        exactLoop searchStr searchLinesLen startIndex thr rest best'
      else none

/-- Model of `find_exact_match`.  `none` models a panic. -/
def find_exact_match (searchStr : Str) (content : List Str) (startIndex : Nat)
    (confidenceThreshold : Q) : Option SearchResult :=
  let searchLines := rustLines searchStr
  let windows := create_overlapping_windows (content.drop startIndex) searchLines.length none
  exactLoop searchStr searchLines.length startIndex confidenceThreshold windows
    ⟨-1, q0, strLit "exact"⟩

/-- The sliding-window loop of `find_similarity_match`: candidates below the
confidence threshold are dropped before context validation. -/
def simLoop (searchStr : Str) (content : List Str) (searchLinesLen : Nat) (thr : Q) :
    List Nat → SearchResult → SearchResult
  | [], best => best
  | i :: rest, best =>
    let windowStr := joinNL ((content.drop i).take searchLinesLen)
    let score := evaluate_similarity searchStr windowStr
    let best' := if qLtB best.confidence score ∧ qLeB thr score then
        let contextSimilarity := validate_context_lines searchStr windowStr thr
        let adjustedScore := qMin score contextSimilarity
        if qLtB best.confidence adjustedScore then
          ⟨(i : Int), adjustedScore, strLit "similarity"⟩
        else best
      else best
    simLoop searchStr content searchLinesLen thr rest best'

/-- Rust `a..b` (exclusive upper bound) as a list. -/
def exclRange (a b : Nat) : List Nat := List.range' a (b - a)

/-- Model of `find_similarity_match` (window slices here are always in bounds,
`i < content.len().saturating_sub(search_lines.len() - 1)`, an exclusive
range). -/
def find_similarity_match (searchStr : Str) (content : List Str) (startIndex : Nat)
    (confidenceThreshold : Q) : SearchResult :=
  let searchLines := rustLines searchStr
  simLoop searchStr content searchLines.length confidenceThreshold
    (exclRange startIndex (content.length - (searchLines.length - 1)))
    ⟨-1, q0, strLit "similarity"⟩

/-- Model of `find_best_match`: run both strategies, keep the strictly best confidence
(`none` models a panic inside the exact strategy). -/
def find_best_match (searchStr : Str) (content : List Str) (startIndex : Nat)
    (confidenceThreshold : Q) : Option SearchResult :=
  match find_exact_match searchStr content startIndex confidenceThreshold with
  | none => none
  | some exactResult =>
    let simResult := find_similarity_match searchStr content startIndex confidenceThreshold
    let best : SearchResult := ⟨-1, q0, strLit "none"⟩
    let best := if qLtB best.confidence exactResult.confidence then exactResult else best
    let best := if qLtB best.confidence simResult.confidence then simResult else best
    some best

/-- The text a change contributes (`if !indent.is_empty() { indent + content }
else { content }`). -/
def changeText (c : Change) : Str :=
  if c.indent ≠ [] then c.indent ++ c.content else c.content

/-- Model of `validate_edit_result`: similarity of the expected post-image to the
spliced region, penalised to 80% when the PRE-image similarity exceeds 0.97
while the post-image similarity is not exactly 1. -/
def validate_edit_result (h : Hunk) (result : Str) : Q :=
  let expectedText := joinNL ((h.changes.filter (fun c =>
    match c.change_type with
    | .context => true
    | .add => true
    | _ => false)).map changeText)
  let similarity := evaluate_similarity expectedText result
  let originalText := joinNL ((h.changes.filter (fun c =>
    match c.change_type with
    | .context => true
    | .remove => true
    | _ => false)).map changeText)
  let originalSimilarity := evaluate_similarity originalText result
  if qLtB ⟨97, 100⟩ originalSimilarity ∧ ¬ qEqB similarity q1 = true then
    qMul ⟨8, 10⟩ similarity
  else similarity

/-! ## NewUnified edit engine (`strategies/new_unified/edit_strategies.rs`) -/

/-- One change of the reconstruction walk of `apply_context_matching`:
`(accumulated output, read cursor)`. -/
def ctxStep (content : List Str) (acc : List Str × Nat) (change : Change) :
    List Str × Nat :=
  let (res, srcIdx) := acc
  match change.change_type with
  | .context =>
    let line := if srcIdx < content.length then content.getD srcIdx []
      else changeText change
    (res ++ [line], srcIdx + 1)
  | .add =>
    let baseIndent := change.indent
    let lines := (rustLines change.content).map (fun line =>
      match line.find? isWS with
      | some _ => line
      | none => baseIndent ++ line)
    (res ++ lines, srcIdx)
  | .remove => (res, srcIdx + (rustLines change.content).length)

/-- Model of `apply_context_matching`.  `none` models the panics of
`content[..match_position]` (match position past the end, or negative and not
`-1`) and of `content[source_index..]` (cursor driven past the end). -/
def apply_context_matching (h : Hunk) (content : List Str) (matchPosition : Int) :
    Option EditResult :=
  if matchPosition = -1 then some ⟨q0, content, strLit "context"⟩
  else if matchPosition < 0 then none
  else
    let p := matchPosition.toNat
    if content.length < p then none
    else
      let (res, srcIdx) := h.changes.foldl (ctxStep content) (content.take p, p)
      if content.length < srcIdx then none
      else
        let newResult := res ++ content.drop srcIdx
        let afterText := joinNL
          ((newResult.take (newResult.length - (content.length - srcIdx))).drop p)
        some ⟨validate_edit_result h afterText, newResult, strLit "context"⟩

/-- Outcomes of the environment the git fallback runs in: one flag per
subprocess step / file operation, in the order the source performs them
(`Command::output` is `Err` only when spawning fails; a non-zero git exit is
still `Ok`). -/
structure GitEnv where
  tempdirOk : Bool
  initOk : Bool
  configNameOk : Bool
  configEmailOk : Bool
  writeOriginalOk : Bool
  addOriginalOk : Bool
  commitOriginal : Option Str
  writeSearchOk : Bool
  addSearchOk : Bool
  commitSearch : Option Str
  writeReplaceOk : Bool
  addReplaceOk : Bool
  commitReplace : Option Str
  checkoutOk : Bool
  cherryPickOk : Bool
  readBack : Option Str
deriving DecidableEq, Repr

/-- The hunk's pre-image (context and removed lines, preferring
`original_line`). -/
def hunkSearchLines (h : Hunk) : List Str :=
  (h.changes.filter (fun c =>
    match c.change_type with
    | .context => true
    | .remove => true
    | _ => false)).map (fun c =>
      match c.original_line with
      | some line => line
      | none => c.indent ++ c.content)

/-- The hunk's post-image (context and added lines). -/
def hunkReplaceLines (h : Hunk) : List Str :=
  (h.changes.filter (fun c =>
    match c.change_type with
    | .context => true
    | .add => true
    | _ => false)).map (fun c =>
      match c.original_line with
      | some line => line
      | none => c.indent ++ c.content)

/-- The zero-confidence result every failure path of `apply_git_fallback`
returns: the input content, unchanged. -/
def gitFail (content : List Str) : EditResult := ⟨q0, content, strLit "git-fallback"⟩

/-- Model of `apply_git_fallback`: every subprocess or file-operation failure returns
`gitFail content`; only the full success path returns confidence 1 with the
lines read back from the merged file.  (The temp-repository file contents are
not tracked beyond the oracle; the pre/post-image texts the source writes are
`hunkSearchLines`/`hunkReplaceLines` joined.) -/
def apply_git_fallback (h : Hunk) (content : List Str) (env : GitEnv) : EditResult :=
  if ¬ env.tempdirOk then gitFail content
  else if ¬ env.initOk then gitFail content
  else if ¬ env.configNameOk then gitFail content
  else if ¬ env.configEmailOk then gitFail content
  else
  -- the texts the source writes into the throwaway repository
  let _originalText := joinNL content
  let _searchText := joinNL (hunkSearchLines h)
  let _replaceText := joinNL (hunkReplaceLines h)
  if ¬ env.writeOriginalOk then gitFail content
  else if ¬ env.addOriginalOk then gitFail content
  else
    match env.commitOriginal with
    | none => gitFail content
    | some _ =>
      if ¬ env.writeSearchOk then gitFail content
      else if ¬ env.addSearchOk then gitFail content
      else
        match env.commitSearch with
        | none => gitFail content
        | some _ =>
          if ¬ env.writeReplaceOk then gitFail content
          else if ¬ env.addReplaceOk then gitFail content
          else
            match env.commitReplace with
            | none => gitFail content
            | some _ =>
              if ¬ env.checkoutOk then gitFail content
              else if ¬ env.cherryPickOk then gitFail content
              else
                match env.readBack with
                | none => gitFail content
                | some newText => ⟨q1, rustLines newText, strLit "git-fallback"⟩

/-- All steps of the fallback succeeded (spawn-level), including the final
read-back. -/
def gitAllOk (env : GitEnv) : Bool :=
  env.tempdirOk && env.initOk && env.configNameOk && env.configEmailOk &&
  env.writeOriginalOk && env.addOriginalOk && env.commitOriginal.isSome &&
  env.writeSearchOk && env.addSearchOk && env.commitSearch.isSome &&
  env.writeReplaceOk && env.addReplaceOk && env.commitReplace.isSome &&
  env.checkoutOk && env.cherryPickOk && env.readBack.isSome

/-- Model of `apply_edit` (default threshold 0.97 when none given): below-threshold
match confidence goes straight to the git fallback; otherwise context matching
is accepted iff its own confidence clears the threshold, else git fallback. -/
def apply_edit (h : Hunk) (content : List Str) (matchPosition : Int) (confidence : Q)
    (confidenceThreshold : Option Q) (env : GitEnv) : Option EditResult :=
  let thr := confidenceThreshold.getD ⟨97, 100⟩
  if qLtB confidence thr then some (apply_git_fallback h content env)
  else
    match apply_context_matching h content matchPosition with
    | none => none
    | some contextResult =>
      if qLeB thr contextResult.confidence then some contextResult
      else some (apply_git_fallback h content env)

/-! ## NewUnified strategy (`strategies/new_unified/mod.rs`) -/

structure NewUnifiedDiffStrategy where
  confidence_threshold : Q
deriving DecidableEq, Repr

/-- Model of `NewUnifiedDiffStrategy::new`:
`confidence_threshold.unwrap_or(1.0).max(0.8)`. -/
def NewUnifiedDiffStrategy.new (confidenceThreshold : Option Q) : NewUnifiedDiffStrategy :=
  ⟨qMax (confidenceThreshold.getD q1) ⟨4, 5⟩⟩

/-- The sub-hunk loop of `apply_diff`: each sub-hunk must be located at or
above the threshold and applied at or above the threshold against the
progressively-edited content; `some none` = the loop failed, `none` = panic. -/
def subHunksRun (env : GitEnv) (thr : Q) :
    List Hunk → List Str → Option (Option (List Str))
  | [], cur => some (some cur)
  | subHunk :: rest, cur =>
    let subContextStr := prepare_search_string subHunk.changes
    match find_best_match subContextStr cur 0 thr with
    | none => none
    | some subSearchResult =>
      if qLeB thr subSearchResult.confidence then
        match apply_edit subHunk cur subSearchResult.index subSearchResult.confidence
            (some thr) env with
        | none => none
        | some subEditResult =>
          if qLeB thr subEditResult.confidence then subHunksRun env thr rest subEditResult.result
          else some none
      else some none

/-- One hunk of the `apply_diff` loop: locate, possibly split, edit.
`some (some r)` = new content, `some none` = diagnosed failure (the diagnostic
text of mod.rs lines 285–345 and 360–383 is not modelled; no claim inspects
it), `none` = panic. -/
def processHunk (env : GitEnv) (thr : Q) (result : List Str) (h : Hunk) :
    Option (Option (List Str)) :=
  let contextStr := prepare_search_string h.changes
  match find_best_match contextStr result 0 thr with
  | none => none
  | some searchResult =>
    if qLtB searchResult.confidence thr then
      match subHunksRun env thr (split_hunk h) result with
      | none => none
      | some (some r) => some (some r)
      | some none => some none
    else
      match apply_edit h result searchResult.index searchResult.confidence (some thr) env with
      | none => none
      | some editResult =>
        if qLeB thr editResult.confidence then some (some editResult.result)
        else some none

def nuRun (env : GitEnv) (thr : Q) : List Hunk → List Str → Option (Option (List Str))
  | [], res => some (some res)
  | h :: rest, res =>
    match processHunk env thr res h with
    | none => none
    | some none => some none
    | some (some r) => nuRun env thr rest r

/-- Outward result of the NewUnified strategy.  Failure diagnostics are not
modelled (no claim inspects them). -/
inductive NUResult where
  | success (content : Str)
  | failure
deriving DecidableEq, Repr

/-- Model of `NewUnifiedDiffStrategy::apply_diff`: parse, reject an empty hunk list,
then apply the hunks in order to the progressively-edited lines.  `startLine`
and `endLine` appear only in diagnostic text in the source and are unused
here; `none` models a panic. -/
def NewUnifiedDiffStrategy.apply_diff (self : NewUnifiedDiffStrategy) (env : GitEnv)
    (originalContent diffContent : Str) (_startLine _endLine : Option Nat) :
    Option NUResult :=
  match parse_unified_diff diffContent with
  | none => none
  | some hunks =>
    let originalLines := rustLines originalContent
    if hunks = [] then some .failure
    else
      match nuRun env self.confidence_threshold hunks originalLines with
      | none => none
      | some none => some .failure
      | some (some res) => some (.success (joinNL res))

/-! ## Definitions written from the claims' words (for comparison against the
source behaviour) and concrete inputs used by witnesses and counterexamples -/

/-- Join words with single spaces (used by the claim-side normalisation). -/
def joinWithSpace : List Str → Str
  | [] => []
  | [w] => w
  | w :: rest => w ++ ' ' :: joinWithSpace rest

/-- Modelled from the spec's words (claim C8): normalisation that COLLAPSES
whitespace runs to single spaces and trims (the source's
`replace(char::is_whitespace, " ")` does not collapse runs). -/
def specCollapseNormalize (s : Str) : Str :=
  joinWithSpace ((s.splitOnP isWS).filter (fun w => w ≠ []))

/-- Modelled from the claim's words (claim C7): an adaptive threshold computed
from the line count of the FILE being searched. -/
def claimAdaptiveThreshold (fileLineCount : Nat) (base : Q) : Q :=
  if fileLineCount ≤ 1000 then base else qMax (qSub base ⟨7, 100⟩) ⟨4, 5⟩

/-- Model of `validate_context_lines` with the threshold supplied from outside (used to
state which threshold the validation actually applies). -/
def validateContextLinesWith (threshold : Q) (searchStr content : Str) : Q :=
  let contextLines := (rustLines searchStr).filter (fun l => ! strStarts (strLit "-") l)
  let similarity := evaluate_similarity (joinNL contextLines) content
  let uniquenessScore := evaluate_content_uniqueness searchStr (rustLines content)
  let uniquenessBoost := qMul uniquenessScore ⟨5, 100⟩
  if qLtB similarity threshold then qAdd (qMul similarity ⟨3, 10⟩) uniquenessBoost
  else qAdd similarity uniquenessBoost

/-- Modelled from the claim's words (claim C7): context validation whose
adaptive threshold is computed from the searched file's line count. -/
def claimValidateContextLines (searchStr content : Str) (fileLineCount : Nat)
    (thr : Q) : Q :=
  validateContextLinesWith (claimAdaptiveThreshold fileLineCount thr) searchStr content

/-- An oracle in which every subprocess step fails (nothing about the claims
settled below depends on the oracle, so witnesses use this one). -/
def envAllFail : GitEnv :=
  ⟨false, false, false, false, false, false, none, false, false, none, false, false,
    none, false, false, none⟩

/-- Leading context lines of a hunk (before its first non-context change, when
one exists). -/
def leadingCtx (h : Hunk) : Nat := (h.changes.takeWhile isContextB).length

/-- Trailing context lines of a hunk (after its last non-context change, when
one exists). -/
def trailingCtx (h : Hunk) : Nat := (h.changes.reverse.takeWhile isContextB).length

/-- A hunk body that contains a non-context change and carries at most six
context lines on each side of its change runs. -/
def goodChanges (cs : List Change) : Prop :=
  hasAddRemove cs = true ∧ (cs.takeWhile isContextB).length ≤ 6 ∧
    (cs.reverse.takeWhile isContextB).length ≤ 6

/-- C1 witness input: the spec's own example. -/
def c1Diff : Str := strLit "<<<<<<< SEARCH\nb\n=======\nB\n>>>>>>> REPLACE"

/-- C2 witness: a unified diff with two change runs separated by eight context
lines. -/
def c2Diff : Str :=
  strLit "--- a\n+++ b\n@@ ... @@\n p\n-b\n+B\n 1\n 2\n 3\n 4\n 5\n 6\n 7\n 8\n-g\n+G"

/-- C2 witness: the file, which has drifted by an extra `z` line inside the
context gap, so the whole hunk cannot be located but both sub-hunks can. -/
def c2Orig : Str := strLit "p\nb\n1\n2\n3\n4\nz\n5\n6\n7\n8\ng"

/-- C2 counterexample input: one change run followed by four context lines and
a second change. -/
def c2SplitDiff : Str := strLit "@@\n p\n-b\n+B\n 1\n 2\n 3\n 4\n-g"

/-- C5 failing input (code bug): a two-line search block applied to a one-line
file; the scan slices `original_lines[0..2]` out of bounds. -/
def c5Diff : Str := strLit "<<<<<<< SEARCH\nx\ny\n=======\nz\n>>>>>>> REPLACE"

/-- C6 counterexample input: the final hunk of the diff is flushed without
trimming, keeping seven leading context lines. -/
def c6Diff : Str := strLit "@@\n 1\n 2\n 3\n 4\n 5\n 6\n 7\n+x"

/-- A two-hunk diff whose both hunks are closed by a following marker line and
therefore trimmed (C6 witness). -/
def c6TwoHunkDiff : Str :=
  strLit "@@\n 1\n 2\n 3\n 4\n 5\n 6\n 7\n+x\n@@\n a\n-b\n+c\n@@"

/-- C7: a two-line search/candidate whose context similarity (17/20) sits
between the relaxed threshold (0.83) and the base threshold (0.9). -/
def c7Text : Str := strLit "-a\nabcdefghijklmnopq"

/-- C7: a 1001-line file whose first two lines are the candidate window. -/
def c7File : Str :=
  joinNL ([strLit "-a", strLit "abcdefghijklmnopq"] ++ List.replicate 999 (strLit "x"))

/-- C9: a SearchReplace block with an empty search section. -/
def c9Diff : Str := strLit "<<<<<<< SEARCH\n\n=======\nX\n>>>>>>> REPLACE"

/-- The diagnostic phrase claim C9 expects. -/
def c9Phrase : Str := strLit "requires start_line and end_line to be the same"

/-- The constant prefix of the empty-search mismatch diagnostic. -/
def c9Pre : Str :=
  strLit "Empty search content requires start_line and end_line to be the same (got "

/-! # Theorems -/

/-! ## Order bridges for `Q` -/

theorem qLeB_true_iff (a b : Q) : qLeB a b = true ↔ a.num * b.den ≤ b.num * a.den := by
  simp [qLeB]

theorem qLtB_true_iff (a b : Q) : qLtB a b = true ↔ a.num * b.den < b.num * a.den := by
  simp [qLtB]

theorem qLtB_false_of_qLeB {a b : Q} (h : qLeB a b = true) : qLtB b a = false := by
  rw [qLeB_true_iff] at h
  simp [qLtB]
  omega

/-! ## Properties of the Levenshtein distance with unit costs -/

theorem levDist_nil_left : ∀ b : Str, levDist [] b = b.length
  | [] => rfl
  | y :: ys => by
      have ih := levDist_nil_left ys
      unfold levDist at ih ⊢
      rw [levenshtein_nil_cons, ih]
      simp [Levenshtein.defaultCost]
      omega

theorem levDist_nil_right : ∀ a : Str, levDist a [] = a.length
  | [] => rfl
  | x :: xs => by
      have ih := levDist_nil_right xs
      unfold levDist at ih ⊢
      rw [levenshtein_cons_nil, ih]
      simp [Levenshtein.defaultCost]
      omega

theorem levDist_cons_cons (x : Char) (xs : Str) (y : Char) (ys : Str) :
    levDist (x :: xs) (y :: ys) =
      min (1 + levDist xs (y :: ys))
        (min (1 + levDist (x :: xs) ys) ((if x = y then 0 else 1) + levDist xs ys)) := by
  unfold levDist
  rw [levenshtein_cons_cons]
  simp [Levenshtein.defaultCost]

theorem levDist_symm (a b : Str) : levDist a b = levDist b a := by
  induction a generalizing b with
  | nil => rw [levDist_nil_left, levDist_nil_right]
  | cons x xs ihx =>
    induction b with
    | nil => rw [levDist_nil_left, levDist_nil_right]
    | cons y ys ihy =>
      rw [levDist_cons_cons, levDist_cons_cons, ihx (y :: ys), ihx ys, ihy]
      have hxy : (if x = y then (0 : Nat) else 1) = (if y = x then 0 else 1) := by
        by_cases h : x = y
        · rw [if_pos h, if_pos h.symm]
        · rw [if_neg h, if_neg (fun hyx => h hyx.symm)]
      rw [hxy]
      omega

theorem levDist_le_max (a b : Str) : levDist a b ≤ max a.length b.length := by
  induction a generalizing b with
  | nil => rw [levDist_nil_left]; omega
  | cons x xs ihx =>
    cases b with
    | nil => rw [levDist_nil_right]; simp
    | cons y ys =>
      rw [levDist_cons_cons]
      have h1 := ihx ys
      have h2 : (if x = y then (0 : Nat) else 1) ≤ 1 := by split <;> omega
      simp only [List.length_cons]
      omega

theorem levDist_self (a : Str) : levDist a a = 0 := by
  induction a with
  | nil => rfl
  | cons x xs ih => rw [levDist_cons_cons]; simp [ih]

theorem eq_of_levDist_eq_zero : ∀ {a b : Str}, levDist a b = 0 → a = b
  | [], b, h => by
      rw [levDist_nil_left] at h
      exact (List.length_eq_zero.mp h).symm
  | x :: xs, [], h => by rw [levDist_nil_right] at h; simp at h
  | x :: xs, y :: ys, h => by
      rw [levDist_cons_cons] at h
      by_cases hxy : x = y
      · rw [if_pos hxy] at h
        have : levDist xs ys = 0 := by omega
        rw [hxy, eq_of_levDist_eq_zero this]
      · rw [if_neg hxy] at h
        omega

/-! ## Properties of `normalized_levenshtein` and `get_similarity` -/

theorem nl_le_one (a b : Str) : qLeB (normalized_levenshtein a b) q1 = true := by
  rw [normalized_levenshtein]
  split
  · decide
  · rw [qLeB_true_iff]
    simp [qSub, qDiv, q1]
    omega

theorem nl_nonneg (a b : Str) : qLeB q0 (normalized_levenshtein a b) = true := by
  rw [normalized_levenshtein]
  split
  · decide
  · rw [qLeB_true_iff]
    have h := levDist_le_max a b
    simp [qSub, qDiv, q0, q1]
    omega

theorem nl_lt_one_of_ne {a b : Str} (h : a ≠ b) :
    qLtB (normalized_levenshtein a b) q1 = true := by
  rw [normalized_levenshtein]
  split
  · rename_i hc
    exact absurd (hc.1.trans hc.2.symm) h
  · rename_i hc
    rw [qLtB_true_iff]
    have hd : levDist a b ≠ 0 := fun h0 => h (eq_of_levDist_eq_zero h0)
    have hm : 0 < max a.length b.length := by
      rcases Nat.eq_zero_or_pos (max a.length b.length) with h0 | h0
      · exfalso
        apply hc
        have ha : a.length = 0 := by omega
        have hb : b.length = 0 := by omega
        exact ⟨List.length_eq_zero.mp ha, List.length_eq_zero.mp hb⟩
      · exact h0
    simp [qSub, qDiv, q1]
    omega

theorem nl_symm (a b : Str) : normalized_levenshtein a b = normalized_levenshtein b a := by
  rw [normalized_levenshtein, normalized_levenshtein, levDist_symm, Nat.max_comm]
  by_cases h1 : a = []
  · by_cases h2 : b = [] <;> simp [h1, h2]
  · by_cases h2 : b = [] <;> simp [h1, h2]

theorem getSim_le_one (o s : Str) : qLeB (get_similarity o s) q1 = true := by
  simp only [get_similarity]
  split
  · decide
  · split
    · decide
    · exact nl_le_one _ _

theorem getSim_nonneg (o s : Str) : qLeB q0 (get_similarity o s) = true := by
  simp only [get_similarity]
  split
  · decide
  · split
    · decide
    · exact nl_nonneg _ _

theorem getSim_eq_one_of_norm_eq {o s : Str}
    (h : trimStr (replaceWS o) = trimStr (replaceWS s)) : get_similarity o s = q1 := by
  by_cases hs : s = []
  · simp only [get_similarity]
    rw [if_pos hs]
  · simp only [get_similarity]
    rw [if_neg hs, if_pos h]

theorem getSim_lt_one {o s : Str} (hs : s ≠ [])
    (h : trimStr (replaceWS o) ≠ trimStr (replaceWS s)) :
    qLtB (get_similarity o s) q1 = true := by
  simp only [get_similarity]
  rw [if_neg hs, if_neg h]
  exact nl_lt_one_of_ne h

theorem getSim_symm {o s : Str} (ho : o ≠ []) (hs : s ≠ []) :
    get_similarity o s = get_similarity s o := by
  simp only [get_similarity]
  rw [if_neg hs, if_neg ho]
  by_cases h : trimStr (replaceWS o) = trimStr (replaceWS s)
  · rw [if_pos h, if_pos h.symm]
  · rw [if_neg h, if_neg (fun hx => h hx.symm), nl_symm]

/-! ## The SearchReplace window scan -/

theorem srScan_stays (lines : List Str) (se : Str) (n : Nat) (idxs : List Nat) (i : Nat)
    (hvalid : ∀ j ∈ idxs, j + n ≤ lines.length) :
    srScan lines se n idxs (some i, q1) = some (some i, q1) := by
  induction idxs with
  | nil => rfl
  | cons j rest ih =>
    simp only [srScan]
    rw [if_pos (hvalid j (by simp))]
    have h2 : qLtB q1 (get_similarity (joinNL ((lines.drop j).take n)) se) = false :=
      qLtB_false_of_qLeB (getSim_le_one _ _)
    rw [h2]
    simp only [Bool.false_eq_true, if_false]
    exact ih (fun k hk => hvalid k (by simp [hk]))

theorem srScan_found (lines : List Str) (se : Str) (n : Nat) (i : Nat)
    (hiv : i + n ≤ lines.length)
    (hi : get_similarity (joinNL ((lines.drop i).take n)) se = q1) :
    ∀ (pre : List Nat) (post : List Nat) (acc : Option Nat × Q),
    (∀ j ∈ pre, j + n ≤ lines.length) →
    (∀ j ∈ post, j + n ≤ lines.length) →
    (∀ j ∈ pre, qLtB (get_similarity (joinNL ((lines.drop j).take n)) se) q1 = true) →
    qLtB acc.2 q1 = true →
    srScan lines se n (pre ++ i :: post) acc = some (some i, q1)
  | [], post, (bi, bs), _, hpost, _, hacc => by
    simp only [List.nil_append, srScan]
    rw [if_pos hiv, hi]
    rw [show qLtB bs q1 = true from hacc]
    simp only [if_true]
    exact srScan_stays lines se n post i hpost
  | j :: pre, post, (bi, bs), hpre, hpost, hlt, hacc => by
    simp only [List.cons_append, srScan]
    rw [if_pos (hpre j (by simp))]
    by_cases hc : qLtB bs (get_similarity (joinNL ((lines.drop j).take n)) se) = true
    · rw [hc]
      simp only [if_true]
      exact srScan_found lines se n i hiv hi pre post _
        (fun k hk => hpre k (by simp [hk])) hpost
        (fun k hk => hlt k (by simp [hk])) (hlt j (by simp))
    · rw [Bool.not_eq_true] at hc
      rw [hc]
      simp only [Bool.false_eq_true, if_false]
      exact srScan_found lines se n i hiv hi pre post _
        (fun k hk => hpre k (by simp [hk])) hpost
        (fun k hk => hlt k (by simp [hk])) hacc

/-- Claim C1 helper: the scan range `0..=(len - n)` split around the first
normalised match. -/
theorem srIndexRange_split (m i : Nat) (him : i ≤ m) :
    srIndexRange 0 m = List.range' 0 i ++ i :: List.range' (i + 1) (m - i) := by
  rw [srIndexRange, if_pos (Nat.zero_le m)]
  have h1 : List.range' i (m - i + 1) = i :: List.range' (i + 1) (m - i) := List.range'_succ ..
  have h2 : List.range' 0 i ++ List.range' (0 + i) (m - i + 1) = List.range' 0 (m - i + 1 + i) :=
    List.range'_append_1 0 i (m - i + 1)
  rw [Nat.zero_add] at h2
  rw [show m + 1 - 0 = m - i + 1 + i by omega, ← h2, h1]

/-- Claim C1: with the default fuzzy threshold and no range hints, if the
search block's text matches the window of length `|search lines|` at `i`
exactly after whitespace normalisation, and no earlier window matches, then
`apply_diff` succeeds and its content is: the lines before the window, the
replace lines verbatim, the lines after the window, newline-joined. -/
theorem searchReplace_normalized_match_success
    (originalContent diffContent searchContent replaceContent : Str) (i : Nat)
    (hparse : parseSearchReplace diffContent = some (searchContent, replaceContent))
    (hse : rustLines searchContent ≠ [])
    (hin : i + (rustLines searchContent).length ≤ (rustLines originalContent).length)
    (hmatch : trimStr (replaceWS (joinNL (((rustLines originalContent).drop i).take
        (rustLines searchContent).length))) = trimStr (replaceWS searchContent))
    (hfirst : ∀ j, j < i →
      trimStr (replaceWS (joinNL (((rustLines originalContent).drop j).take
        (rustLines searchContent).length))) ≠ trimStr (replaceWS searchContent)) :
    (SearchReplaceDiffStrategy.new none none).apply_diff originalContent diffContent
        none none =
      some (.success (srSplice (rustLines originalContent) replaceContent i
        (rustLines searchContent).length)) := by
  have hsne : searchContent ≠ [] := fun h => hse (by rw [h]; rfl)
  have hthr : (SearchReplaceDiffStrategy.new none none).fuzzy_threshold = q1 := rfl
  simp only [SearchReplaceDiffStrategy.apply_diff, hparse, hthr]
  rw [if_neg (fun hand => hse hand.1), if_neg (fun hand => hse hand.1)]
  simp only [srScanAndFinish]
  set lines := rustLines originalContent with hlines
  set n := (rustLines searchContent).length with hn
  have hsplit := srIndexRange_split (lines.length - n) i (by omega)
  rw [hsplit]
  have hrun := srScan_found lines searchContent n i hin
    (getSim_eq_one_of_norm_eq hmatch)
    (List.range' 0 i) (List.range' (i + 1) (lines.length - n - i)) (none, q0)
    (fun j hj => by
      have := (List.mem_range'_1.mp hj).2
      omega)
    (fun j hj => by
      have := (List.mem_range'_1.mp hj).2
      omega)
    (fun j hj => by
      have hji := (List.mem_range'_1.mp hj).2
      exact getSim_lt_one hsne (hfirst j (by omega)))
    (by decide)
  rw [hrun]
  simp only [srFinish]
  rw [show qLtB q1 q1 = false from by decide]
  simp

/-- Claim C1 witness: the spec's example — original `"a\nb\nc\n"`, search
`"b"`, replace `"B"` — succeeds with content `"a\nB\nc"`. -/
theorem searchReplace_normalized_match_success_witness :
    (SearchReplaceDiffStrategy.new none none).apply_diff (strLit "a\nb\nc\n") c1Diff
        none none = some (.success (strLit "a\nB\nc")) := by
  have h := searchReplace_normalized_match_success (strLit "a\nb\nc\n") c1Diff
    (strLit "b") (strLit "B") 1 (by decide) (by decide) (by decide) (by decide)
    (fun j hj => by
      have : j = 0 := by omega
      subst this
      decide)
  rw [h]
  decide

/-- Claim C5 (code bug): `SearchReplaceDiffStrategy::apply_diff` panics — the
model returns `none` — on a search block with more lines than the file
(original `"a"`, search `"x\ny"`, no hints): the scan still runs `i = 0` and
slices `original_lines[0..2]` out of bounds instead of reporting a `Failure`. -/
theorem searchReplace_panics_on_long_search :
    (SearchReplaceDiffStrategy.new none none).apply_diff (strLit "a") c5Diff
        none none = none := by
  decide

/-- Claim C8 counterexample: `get_similarity` is NOT symmetric — an empty
SEARCH argument scores 1.0 against anything, while an empty ORIGINAL argument
scores 0.0 against `"ab"` — and equality after COLLAPSING whitespace runs does
not force a score of 1.0: `"a  b"` vs `"a b"` normalise equally under the
claim's collapsing normalisation yet score 3/4, because the source replaces
each whitespace character one-for-one without collapsing runs. -/
theorem get_similarity_claim_counterexample :
    get_similarity (strLit "ab") [] = q1 ∧
    get_similarity [] (strLit "ab") = ⟨0, 2⟩ ∧
    ¬ qEqB q1 ⟨0, 2⟩ = true ∧
    specCollapseNormalize (strLit "a  b") = specCollapseNormalize (strLit "a b") ∧
    qEqB (get_similarity (strLit "a  b") (strLit "a b")) ⟨3, 4⟩ = true ∧
    ¬ qEqB (get_similarity (strLit "a  b") (strLit "a b")) q1 = true := by
  decide

/-- Claim C8 (amended): `get_similarity` always returns a value in `[0, 1]`;
it returns exactly 1.0 whenever the two inputs are equal after the SOURCE's
normalisation (each whitespace character replaced by one space, then trimmed);
and it is symmetric whenever both arguments are non-empty. -/
theorem get_similarity_amended (a b : Str) :
    (qLeB q0 (get_similarity a b) = true ∧ qLeB (get_similarity a b) q1 = true) ∧
    (trimStr (replaceWS a) = trimStr (replaceWS b) → get_similarity a b = q1) ∧
    (a ≠ [] → b ≠ [] → get_similarity a b = get_similarity b a) := by
  exact ⟨⟨getSim_nonneg a b, getSim_le_one a b⟩,
    fun h => getSim_eq_one_of_norm_eq h,
    fun ha hb => getSim_symm ha hb⟩

/-- Claim C8 witness: the amended claim applied at `a := "x \ty"`,
`b := "x  y"` (equal after one-for-one whitespace normalisation) and at the
non-empty pair `("ab", "cd")`. -/
theorem get_similarity_amended_witness :
    get_similarity (strLit "x \ty") (strLit "x  y") = q1 ∧
    get_similarity (strLit "ab") (strLit "cd") = get_similarity (strLit "cd") (strLit "ab") := by
  constructor
  · exact (get_similarity_amended (strLit "x \ty") (strLit "x  y")).2.1 (by decide)
  · exact (get_similarity_amended (strLit "ab") (strLit "cd")).2.2 (by decide) (by decide)

/-! ## Claim C9: empty search with mismatching line hints -/

theorem strStarts_append {p x : Str} (y : Str) (h : strStarts p x = true) :
    strStarts p (x ++ y) = true := by
  induction p generalizing x with
  | nil => rfl
  | cons pc ps ih =>
    cases x with
    | nil => simp [strStarts] at h
    | cons c cs =>
      simp only [List.cons_append, strStarts, Bool.and_eq_true] at h ⊢
      exact ⟨h.1, ih h.2⟩

theorem containsStr_of_occursAt (pat s : Str) (k : Nat) (hk : k ≤ s.length)
    (h : occursAt pat s k = true) : containsStr pat s = true := by
  rw [containsStr, substrFindFrom]
  rw [Option.isSome_iff_exists]
  have hmem : k ∈ List.range' 0 (s.length + 1 - 0) := by
    rw [List.mem_range'_1]
    omega
  have := List.find?_isSome.mpr ⟨k, hmem, h⟩
  rcases Option.isSome_iff_exists.mp this with ⟨v, hv⟩
  exact ⟨v, hv⟩

theorem srMsgEmptySame_assoc (sl el : Option Nat) :
    srMsgEmptySame sl el =
      c9Pre ++ (natToStr (sl.getD 0) ++ (strLit "-" ++ (natToStr (el.getD 0) ++ strLit ")"))) := by
  simp [srMsgEmptySame, c9Pre, List.append_assoc]

theorem c9_phrase_in_msgEmptySame (sl el : Option Nat) :
    containsStr c9Phrase (srMsgEmptySame sl el) = true := by
  rw [srMsgEmptySame_assoc]
  apply containsStr_of_occursAt _ _ 21
  · rw [List.length_append]
    have : c9Pre.length = 74 := by decide
    omega
  · rw [occursAt, List.drop_append_of_le_length (by decide)]
    exact strStarts_append _ (by decide)

/-- Claim C9 counterexample: with an empty search section, `start_line`
ABSENT and `end_line` present (so `start_line ≠ end_line`), the call fails
with "Empty search content requires start_line to be specified", which does
not contain the claimed phrase "requires start_line and end_line to be the
same". -/
theorem searchReplace_empty_search_counterexample :
    (SearchReplaceDiffStrategy.new none none).apply_diff (strLit "a") c9Diff
        none (some 1) = some (.failure srMsgEmptyNeedStart none) ∧
    containsStr c9Phrase srMsgEmptyNeedStart = false := by
  decide

/-- Claim C9 (amended): with an empty search section and
`start_line ≠ end_line`, `apply_diff` always returns a `Failure` and never
succeeds; when `start_line` is PRESENT the error contains "requires
start_line and end_line to be the same", but when `start_line` is absent the
error is "Empty search content requires start_line to be specified" instead. -/
theorem searchReplace_empty_search_mismatch (self : SearchReplaceDiffStrategy)
    (originalContent diffContent searchContent replaceContent : Str)
    (startLine endLine : Option Nat)
    (hparse : parseSearchReplace diffContent = some (searchContent, replaceContent))
    (hempty : rustLines searchContent = [])
    (hne : startLine ≠ endLine) :
    (startLine = none →
      self.apply_diff originalContent diffContent startLine endLine =
        some (.failure srMsgEmptyNeedStart none)) ∧
    (∀ s, startLine = some s →
      self.apply_diff originalContent diffContent startLine endLine =
        some (.failure (srMsgEmptySame startLine endLine) none) ∧
      containsStr c9Phrase (srMsgEmptySame startLine endLine) = true) := by
  constructor
  · intro hnone
    subst hnone
    simp only [SearchReplaceDiffStrategy.apply_diff, hparse]
    rw [if_pos ⟨hempty, trivial⟩]
  · intro s hsome
    subst hsome
    refine ⟨?_, c9_phrase_in_msgEmptySame _ _⟩
    simp only [SearchReplaceDiffStrategy.apply_diff, hparse]
    rw [if_neg (fun hand => Option.noConfusion hand.2), if_pos ⟨hempty, hne⟩]

/-- Claim C9 witness: the amended claim applied with `start_line = Some 2`,
`end_line = Some 5` on a concrete empty-search block. -/
theorem searchReplace_empty_search_mismatch_witness :
    (SearchReplaceDiffStrategy.new none none).apply_diff (strLit "a") c9Diff
        (some 2) (some 5) =
      some (.failure (srMsgEmptySame (some 2) (some 5)) none) ∧
    containsStr c9Phrase (srMsgEmptySame (some 2) (some 5)) = true := by
  exact (searchReplace_empty_search_mismatch (SearchReplaceDiffStrategy.new none none)
    (strLit "a") c9Diff [] (strLit "X") (some 2) (some 5) (by decide) (by decide)
    (by decide)).2 2 rfl

/-! ## Claims C3, C4, C10: edit engine policies and threshold floor -/

theorem qLeB_of_qLtB_false {a b : Q} (h : qLtB a b = false) : qLeB b a = true := by
  simp only [qLtB, decide_eq_false_iff_not] at h
  rw [qLeB_true_iff]
  omega

/-- Claim C3: `apply_git_fallback` always returns a well-formed `EditResult`
tagged "git-fallback" and never propagates a subprocess failure: either every
step succeeded and the result is the read-back file at confidence 1.0, or the
confidence is 0.0 and the result is the input content unchanged. -/
theorem apply_git_fallback_total (h : Hunk) (content : List Str) (env : GitEnv) :
    (apply_git_fallback h content env).strategy = strLit "git-fallback" ∧
    (((apply_git_fallback h content env).confidence = q1 ∧ gitAllOk env = true ∧
        ∃ t, env.readBack = some t ∧
          (apply_git_fallback h content env).result = rustLines t) ∨
      ((apply_git_fallback h content env).confidence = q0 ∧
        (apply_git_fallback h content env).result = content)) := by
  have hfail : (gitFail content).strategy = strLit "git-fallback" ∧
      (((gitFail content).confidence = q1 ∧ gitAllOk env = true ∧
          ∃ t, env.readBack = some t ∧ (gitFail content).result = rustLines t) ∨
        ((gitFail content).confidence = q0 ∧ (gitFail content).result = content)) :=
    ⟨rfl, Or.inr ⟨rfl, rfl⟩⟩
  unfold apply_git_fallback
  by_cases h1 : env.tempdirOk = true
  case neg => rw [if_pos h1]; exact hfail
  rw [if_neg (fun hc => hc h1)]
  by_cases h2 : env.initOk = true
  case neg => rw [if_pos h2]; exact hfail
  rw [if_neg (fun hc => hc h2)]
  by_cases h3 : env.configNameOk = true
  case neg => rw [if_pos h3]; exact hfail
  rw [if_neg (fun hc => hc h3)]
  by_cases h4 : env.configEmailOk = true
  case neg => rw [if_pos h4]; exact hfail
  rw [if_neg (fun hc => hc h4)]
  by_cases h5 : env.writeOriginalOk = true
  case neg => rw [if_pos h5]; exact hfail
  rw [if_neg (fun hc => hc h5)]
  by_cases h6 : env.addOriginalOk = true
  case neg => rw [if_pos h6]; exact hfail
  rw [if_neg (fun hc => hc h6)]
  cases hc1 : env.commitOriginal with
  | none => simp only [hc1]; exact hfail
  | some v1 =>
  simp only [hc1]
  by_cases h7 : env.writeSearchOk = true
  case neg => rw [if_pos h7]; exact hfail
  rw [if_neg (fun hc => hc h7)]
  by_cases h8 : env.addSearchOk = true
  case neg => rw [if_pos h8]; exact hfail
  rw [if_neg (fun hc => hc h8)]
  cases hc2 : env.commitSearch with
  | none => simp only [hc2]; exact hfail
  | some v2 =>
  simp only [hc2]
  by_cases h9 : env.writeReplaceOk = true
  case neg => rw [if_pos h9]; exact hfail
  rw [if_neg (fun hc => hc h9)]
  by_cases h10 : env.addReplaceOk = true
  case neg => rw [if_pos h10]; exact hfail
  rw [if_neg (fun hc => hc h10)]
  cases hc3 : env.commitReplace with
  | none => simp only [hc3]; exact hfail
  | some v3 =>
  simp only [hc3]
  by_cases h11 : env.checkoutOk = true
  case neg => rw [if_pos h11]; exact hfail
  rw [if_neg (fun hc => hc h11)]
  by_cases h12 : env.cherryPickOk = true
  case neg => rw [if_pos h12]; exact hfail
  rw [if_neg (fun hc => hc h12)]
  cases hc4 : env.readBack with
  | none => simp only [hc4]; exact ⟨rfl, Or.inr ⟨rfl, rfl⟩⟩
  | some t =>
  simp only [hc4]
  refine ⟨trivial, Or.inl ⟨trivial, ?_, ⟨t, rfl, rfl⟩⟩⟩
  simp [gitAllOk, h1, h2, h3, h4, h5, h6, h7, h8, h9, h10, h11, h12, hc1, hc2, hc3, hc4]

/-- Claim C4: the escalation policy of `apply_edit` — confidence below the
threshold (default 0.97) goes straight to the git fallback without running
context matching; otherwise the context-matching result is returned iff its
confidence clears the threshold, and the git fallback otherwise (a panic in
context matching propagates). -/
theorem apply_edit_escalation (h : Hunk) (content : List Str) (pos : Int) (conf : Q)
    (thrOpt : Option Q) (env : GitEnv) :
    (qLtB conf (thrOpt.getD ⟨97, 100⟩) = true →
      apply_edit h content pos conf thrOpt env = some (apply_git_fallback h content env)) ∧
    (qLtB conf (thrOpt.getD ⟨97, 100⟩) = false →
      apply_edit h content pos conf thrOpt env =
        (apply_context_matching h content pos).map (fun contextResult =>
          if qLeB (thrOpt.getD ⟨97, 100⟩) contextResult.confidence then contextResult
          else apply_git_fallback h content env)) := by
  constructor
  · intro hc
    simp only [apply_edit, hc, if_true]
  · intro hc
    simp only [apply_edit, hc, Bool.false_eq_true, if_false]
    cases hm : apply_context_matching h content pos with
    | none => simp
    | some contextResult =>
      simp only [Option.map_some']
      split <;> rfl

/-- Claim C4 witness: a below-threshold confidence (0 < 0.97 default) returns
exactly the git-fallback result. -/
theorem apply_edit_escalation_witness :
    apply_edit ⟨[]⟩ [strLit "a"] (-1) q0 none envAllFail =
      some (apply_git_fallback ⟨[]⟩ [strLit "a"] envAllFail) :=
  (apply_edit_escalation ⟨[]⟩ [strLit "a"] (-1) q0 none envAllFail).1 (by decide)

/-- Claim C10: `NewUnifiedDiffStrategy::new` stores
`requested.unwrap_or(1.0).max(0.8)`: the stored threshold is `max(t, 0.8)`,
hence always at least 0.8, and exactly 1.0 when no threshold is given.
`apply_diff` gates every match and edit with this stored field. -/
theorem new_unified_threshold_floor (t : Option Q) :
    (NewUnifiedDiffStrategy.new t).confidence_threshold = qMax (t.getD q1) ⟨4, 5⟩ ∧
    qLeB ⟨4, 5⟩ (NewUnifiedDiffStrategy.new t).confidence_threshold = true ∧
    (NewUnifiedDiffStrategy.new none).confidence_threshold = q1 := by
  refine ⟨rfl, ?_, rfl⟩
  simp only [NewUnifiedDiffStrategy.new, qMax]
  split
  · decide
  · rename_i hlt
    exact qLeB_of_qLtB_false (Bool.not_eq_true _ |>.mp hlt)

/-! ## Claim C7: the adaptive threshold -/

/-- Claim C7 counterexample: the adaptive threshold is computed from the
CANDIDATE text handed to context validation, not from the file being
searched.  `c7File` has 1001 lines and the candidate `c7Text` is its two-line
window at the top; with base threshold 0.9, validation of that candidate
applies the UNRELAXED threshold (the candidate has 2 ≤ 1000 lines), penalises
the 0.85 similarity to 0.305 = 61/200, and so differs from what the claim's
file-based formula (relaxed threshold 0.83, score 0.9) predicts. -/
theorem adaptive_threshold_claim_counterexample :
    (rustLines c7File).length = 1001 ∧
    joinNL ((rustLines c7File).take 2) = c7Text ∧
    qEqB (validate_context_lines c7Text c7Text ⟨9, 10⟩) ⟨61, 200⟩ = true ∧
    qEqB (validate_context_lines c7Text c7Text ⟨9, 10⟩)
      (claimValidateContextLines c7Text c7Text 1001 ⟨9, 10⟩) = false := by
  decide

/-- Claim C7 (amended): during context validation the adaptive threshold is
the base threshold when the CANDIDATE content passed to validation has at
most 1000 lines, and `max(base − 0.07, 0.8)` when it has more than 1000
lines. -/
theorem validate_context_lines_threshold (s c : Str) (t : Q) :
    ((rustLines c).length ≤ 1000 →
      validate_context_lines s c t = validateContextLinesWith t s c) ∧
    (1000 < (rustLines c).length →
      validate_context_lines s c t =
        validateContextLinesWith (qMax (qSub t ⟨7, 100⟩) ⟨4, 5⟩) s c) := by
  constructor
  · intro hsmall
    have ht : get_adaptive_threshold (rustLines c).length t = t := by
      rw [get_adaptive_threshold, if_pos hsmall]
    simp only [validate_context_lines, validateContextLinesWith, ht]
  · intro hlarge
    have ht : get_adaptive_threshold (rustLines c).length t =
        qMax (qSub t ⟨7, 100⟩) ⟨4, 5⟩ := by
      rw [get_adaptive_threshold, if_neg (by omega)]
    simp only [validate_context_lines, validateContextLinesWith, ht]

/-- Claim C7 witness: the amended claim applied to a one-line candidate
(unrelaxed threshold) with base 0.9. -/
theorem validate_context_lines_threshold_witness :
    validate_context_lines (strLit "abcdef") (strLit "abcdeg") ⟨9, 10⟩ =
      validateContextLinesWith ⟨9, 10⟩ (strLit "abcdef") (strLit "abcdeg") :=
  (validate_context_lines_threshold (strLit "abcdef") (strLit "abcdeg") ⟨9, 10⟩).1
    (by decide)

/-! ## Claim C2: hunk splitting -/

/-- Claim C2 counterexample: sub-hunks produced by `split_hunk` do NOT keep at
most 3 context lines on each side of a change run — at an interior split
boundary the first sub-hunk keeps 4 trailing context lines and the next
sub-hunk inherits the same 4 as leading context. -/
theorem split_hunk_context_counterexample :
    (parse_unified_diff c2SplitDiff).map (fun hs => hs.map (fun hk =>
      (split_hunk hk).map trailingCtx)) = some [[4, 0]] ∧
    (parse_unified_diff c2SplitDiff).map (fun hs => hs.map (fun hk =>
      (split_hunk hk).map leadingCtx)) = some [[1, 4]] ∧
    ¬ (4 : Nat) ≤ 3 := by
  decide

/-- Claim C2 (amended): in `NewUnifiedDiffStrategy::apply_diff`, for a diff
whose parsed hunk fails its whole-hunk search (confidence below the stored
threshold), if every sub-hunk produced by `split_hunk` (which can keep up to
4 context lines at interior split boundaries) is located and applied with
confidence at or above the threshold against the progressively-edited
content, the call returns `Success` whose content is the result of applying
each sub-hunk in sequence. -/
theorem nu_split_hunks_chain (s : NewUnifiedDiffStrategy) (env : GitEnv)
    (originalContent diffContent : Str) (h : Hunk) (sr : SearchResult)
    (final : List Str) (sl el : Option Nat)
    (hparse : parse_unified_diff diffContent = some [h])
    (hfind : find_best_match (prepare_search_string h.changes)
        (rustLines originalContent) 0 s.confidence_threshold = some sr)
    (hlow : qLtB sr.confidence s.confidence_threshold = true)
    (hsubs : subHunksRun env s.confidence_threshold (split_hunk h)
        (rustLines originalContent) = some (some final)) :
    s.apply_diff env originalContent diffContent sl el =
      some (.success (joinNL final)) := by
  simp only [NewUnifiedDiffStrategy.apply_diff, hparse]
  rw [if_neg (by simp)]
  simp only [nuRun, processHunk, hfind, hlow, if_true, hsubs]

/-- Claim C2 witness: `c2Diff` against `c2Orig` — the whole hunk misses (the
file drifted by an extra `z` line inside the eight-line context gap, whole
confidence 0 < 1), both sub-hunks locate and apply exactly, and the call
succeeds with the chained result. -/
theorem nu_split_hunks_chain_witness :
    (NewUnifiedDiffStrategy.new none).apply_diff envAllFail c2Orig c2Diff none none =
      some (.success (strLit "p\nB\n1\n2\n3\n4\nz\n5\n6\n7\n8\nG")) := by
  have h := nu_split_hunks_chain (NewUnifiedDiffStrategy.new none) envAllFail
    c2Orig c2Diff
    ⟨[⟨.context, strLit "p", [], some (strLit "p")⟩,
      ⟨.remove, strLit "b", [], some (strLit "b")⟩,
      ⟨.add, strLit "B", [], some (strLit "B")⟩,
      ⟨.context, strLit "1", [], some (strLit "1")⟩,
      ⟨.context, strLit "2", [], some (strLit "2")⟩,
      ⟨.context, strLit "3", [], some (strLit "3")⟩,
      ⟨.context, strLit "4", [], some (strLit "4")⟩,
      ⟨.context, strLit "5", [], some (strLit "5")⟩,
      ⟨.context, strLit "6", [], some (strLit "6")⟩,
      ⟨.context, strLit "7", [], some (strLit "7")⟩,
      ⟨.context, strLit "8", [], some (strLit "8")⟩,
      ⟨.remove, strLit "g", [], some (strLit "g")⟩,
      ⟨.add, strLit "G", [], some (strLit "G")⟩]⟩
    ⟨-1, q0, strLit "none"⟩
    [strLit "p", strLit "B", strLit "1", strLit "2", strLit "3", strLit "4",
      strLit "z", strLit "5", strLit "6", strLit "7", strLit "8", strLit "G"]
    none none (by decide) (by decide) (by decide) (by decide)
  rw [h]
  decide

/-! ## Claim C6: parsing discards pure-context hunks and trims context -/

theorem takeWhile_length_le {α} (p : α → Bool) (l : List α) (i : Nat) (hi : i < l.length)
    (hp : p (l.get ⟨i, hi⟩) = false) : (l.takeWhile p).length ≤ i := by
  induction l generalizing i with
  | nil => simp at hi
  | cons a as ih =>
    cases i with
    | zero =>
      simp only [List.get] at hp
      simp [List.takeWhile_cons, hp]
    | succ n =>
      by_cases hpa : p a = true
      · simp only [List.takeWhile_cons, hpa, if_true, List.length_cons]
        have := ih n (by simpa using hi) (by simpa using hp)
        omega
      · rw [Bool.not_eq_true] at hpa
        simp [List.takeWhile_cons, hpa]

theorem hasAddRemove_eq_any (cs : List Change) :
    hasAddRemove cs = cs.any (fun c => ! isContextB c) := by
  unfold hasAddRemove
  congr 1
  funext c
  cases hc : c.change_type <;> simp [isContextB, hc]

theorem trimChanges_good (cs : List Change) (hne : hasAddRemove cs = true) :
    goodChanges (trimChanges cs) := by
  rw [hasAddRemove_eq_any] at hne
  have hex : ∃ c ∈ cs, (! isContextB c) = true := List.any_eq_true.mp hne
  have hexr : ∃ c ∈ cs.reverse, (! isContextB c) = true := by
    rcases hex with ⟨c, hc, hpc⟩
    exact ⟨c, List.mem_reverse.mpr hc, hpc⟩
  have hj0lt : cs.findIdx (fun c => ! isContextB c) < cs.length :=
    List.findIdx_lt_length_of_exists hex
  have hrlt' : cs.reverse.findIdx (fun c => ! isContextB c) < cs.reverse.length :=
    List.findIdx_lt_length_of_exists hexr
  have hrlt : cs.reverse.findIdx (fun c => ! isContextB c) < cs.length := by
    simpa using hrlt'
  set j0 := cs.findIdx (fun c => ! isContextB c) with hj0def
  set r := cs.reverse.findIdx (fun c => ! isContextB c) with hrdef
  set j1 := cs.length - 1 - r with hj1def
  have hj0p : (! isContextB (cs.get ⟨j0, hj0lt⟩)) = true := by
    have := List.findIdx_getElem (w := hj0lt)
    simpa [List.get_eq_getElem] using this
  have hj1lt : j1 < cs.length := by omega
  have hj1p : (! isContextB (cs.get ⟨j1, hj1lt⟩)) = true := by
    have h1 := List.findIdx_getElem (w := hrlt')
    have h2 : cs.reverse.get ⟨r, hrlt'⟩ = cs.get ⟨j1, hj1lt⟩ := by
      rw [List.get_eq_getElem, List.get_eq_getElem, List.getElem_reverse]
    rw [← h2]
    simpa [List.get_eq_getElem] using h1
  have hj0le : j0 ≤ j1 := by
    by_contra hcon
    have hlt : j1 < j0 := by omega
    have hfalse := @List.not_of_lt_findIdx Change (fun c => ! isContextB c) cs j1 hlt
    have hj1p2 : (! isContextB (cs.get ⟨j1, hj1lt⟩)) = false := by
      rw [List.get_eq_getElem]
      exact hfalse
    rw [hj1p2] at hj1p
    cases hj1p
  simp only [goodChanges, trimChanges]
  rw [← hj0def, ← hrdef, if_pos hj0lt, if_pos hrlt, ← hj1def]
  set e := min (j1 + 6) (cs.length - 1) with hedef
  set s0 := j0 - 6 with hs0def
  have hj1e : j1 ≤ e := by omega
  have he : e < cs.length := by omega
  set slice := (cs.take (e + 1)).drop s0 with hslice
  have hslen : slice.length = e + 1 - s0 := by
    rw [hslice, List.length_drop, List.length_take]
    omega
  have helem : ∀ (k : Nat), s0 ≤ k → ∀ (hk2 : k ≤ e) (hin : k - s0 < slice.length),
      slice.get ⟨k - s0, hin⟩ = cs.get ⟨k, by omega⟩ := by
    intro k hk1 hk2 hin
    rw [List.get_eq_getElem, List.get_eq_getElem]
    show (List.drop s0 (List.take (e + 1) cs))[k - s0] = cs[k]
    rw [List.getElem_drop, List.getElem_take]
    simp only [show s0 + (k - s0) = k from by omega]
  have hj0in : j0 - s0 < slice.length := by omega
  have hj0val : isContextB (slice.get ⟨j0 - s0, hj0in⟩) = false := by
    rw [helem j0 (by omega) (by omega) hj0in]
    simpa using hj0p
  refine ⟨?_, ?_, ?_⟩
  · rw [hasAddRemove_eq_any]
    apply List.any_eq_true.mpr
    refine ⟨slice.get ⟨j0 - s0, hj0in⟩, List.get_mem slice _ hj0in, ?_⟩
    simpa [List.get_eq_getElem] using hj0val
  · have := takeWhile_length_le isContextB slice (j0 - s0) hj0in hj0val
    omega
  · have hrin : e - j1 < slice.reverse.length := by
      rw [List.length_reverse]
      omega
    have hrev : slice.reverse.get ⟨e - j1, hrin⟩ = slice.get ⟨j1 - s0, by omega⟩ := by
      rw [List.get_eq_getElem, List.get_eq_getElem, List.getElem_reverse]
      have : slice.length - 1 - (e - j1) = j1 - s0 := by omega
      simp only [this]
    have hj1val : isContextB (slice.reverse.get ⟨e - j1, hrin⟩) = false := by
      rw [hrev, helem j1 (by omega) (by omega) (by omega)]
      simpa using hj1p
    have := takeWhile_length_le isContextB slice.reverse (e - j1) hrin hj1val
    omega

/-- Every hunk accumulated DURING the parse loop went through the trimming
push site, hence is good. -/
theorem puFold_invariant (lines : List Str) (st st' : PUState)
    (hst : ∀ h ∈ st.hunks, goodChanges h.changes)
    (hfold : List.foldlM puStep st lines = some st') :
    ∀ h ∈ st'.hunks, goodChanges h.changes := by
  induction lines generalizing st with
  | nil =>
    have h2 : some st = some st' := hfold
    cases h2
    exact hst
  | cons l rest ih =>
    have h2 : (puStep st l >>= fun s => List.foldlM puStep s rest) = some st' := hfold
    clear hfold
    cases hps : puStep st l with
    | none => rw [hps] at h2; cases h2
    | some st1 =>
      rw [hps] at h2
      have hfold : List.foldlM puStep st1 rest = some st' := h2
      refine ih st1 ?_ hfold
      unfold puStep at hps
      by_cases hl : strStarts (strLit "@@") l = true
      · rw [if_pos hl] at hps
        cases hcur : st.current with
        | none =>
          rw [hcur] at hps
          cases hps
          exact hst
        | some cs =>
          rw [hcur] at hps
          have hps2 : some (⟨if hasAddRemove cs = true then
              st.hunks ++ [⟨trimChanges cs⟩] else st.hunks, some []⟩ : PUState) =
              some st1 := hps
          clear hps
          by_cases har : hasAddRemove cs = true
          · rw [if_pos har] at hps2
            cases hps2
            intro h hmem
            rcases List.mem_append.mp hmem with hold | hnew
            · exact hst h hold
            · rw [List.mem_singleton.mp hnew]
              exact trimChanges_good cs har
          · rw [if_neg har] at hps2
            cases hps2
            exact hst
      · rw [if_neg hl] at hps
        cases hcur : st.current with
        | none =>
          rw [hcur] at hps
          cases hps
          exact hst
        | some cs =>
          rw [hcur] at hps
          cases hmk : mkChange l with
          | none => rw [hmk] at hps; cases hps
          | some c =>
            rw [hmk] at hps
            simp only [Option.map_some'] at hps
            cases hps
            exact hst

/-- Claim C6 (amended): every hunk returned by `parse_unified_diff` contains
at least one Add or Remove change; and every hunk EXCEPT POSSIBLY THE LAST
(which, when flushed at end of input, skips the trimming) has at most six
context lines before its first non-context change and after its last one. -/
theorem parse_unified_diff_spec (diff : Str) (hs : List Hunk)
    (hp : parse_unified_diff diff = some hs) :
    (∀ h ∈ hs, hasAddRemove h.changes = true) ∧
    (∀ h ∈ hs.dropLast, leadingCtx h ≤ 6 ∧ trailingCtx h ≤ 6) := by
  simp only [parse_unified_diff] at hp
  cases hfold : List.foldlM puStep (⟨[], none⟩ : PUState)
      ((rustLines diff).dropWhile (fun l => ! strStarts (strLit "@@") l)) with
  | none => rw [hfold] at hp; cases hp
  | some st =>
    rw [hfold] at hp
    simp only [Option.map_some'] at hp
    have hinv := puFold_invariant _ ⟨[], none⟩ st (by intro h hmem; cases hmem) hfold
    have hgood_mem : ∀ h ∈ st.hunks, hasAddRemove h.changes = true ∧
        leadingCtx h ≤ 6 ∧ trailingCtx h ≤ 6 := by
      intro h hm
      have := hinv h hm
      exact ⟨this.1, this.2.1, this.2.2⟩
    cases hcur : st.current with
    | none =>
      rw [hcur] at hp
      have hp2 : some st.hunks = some hs := hp
      cases hp2
      refine ⟨fun h hm => (hgood_mem h hm).1, fun h hm => ?_⟩
      have := hgood_mem h (List.dropLast_subset _ hm)
      exact ⟨this.2.1, this.2.2⟩
    | some cs =>
      rw [hcur] at hp
      have hp2 : some (if hasAddRemove cs = true then st.hunks ++ [⟨cs⟩] else st.hunks) =
          some hs := hp
      clear hp
      by_cases har : hasAddRemove cs = true
      · rw [if_pos har] at hp2
        cases hp2
        constructor
        · intro h hm
          rcases List.mem_append.mp hm with hold | hnew
          · exact (hgood_mem h hold).1
          · rw [List.mem_singleton.mp hnew]
            exact har
        · intro h hm
          rw [List.dropLast_concat] at hm
          have := hgood_mem h hm
          exact ⟨this.2.1, this.2.2⟩
      · rw [if_neg har] at hp2
        cases hp2
        refine ⟨fun h hm => (hgood_mem h hm).1, fun h hm => ?_⟩
        have := hgood_mem h (List.dropLast_subset _ hm)
        exact ⟨this.2.1, this.2.2⟩

/-- Claim C6 counterexample: the final hunk of a diff is flushed WITHOUT the
`MAX_CONTEXT_LINES = 6` trimming — `c6Diff`'s only hunk keeps all seven
context lines before its single Add change. -/
theorem parse_trimming_counterexample :
    (parse_unified_diff c6Diff).map (fun hs => hs.map leadingCtx) = some [7] ∧
    ¬ (7 : Nat) ≤ 6 := by
  decide

/-- Claim C6 witness: the amended claim applied to a two-hunk diff whose both
hunks are closed by a later `@@` marker; the first (non-final, trimmed to six
context lines) satisfies all three bounds. -/
theorem parse_unified_diff_spec_witness :
    hasAddRemove [(⟨.context, strLit "2", [], some (strLit "2")⟩ : Change),
      ⟨.context, strLit "3", [], some (strLit "3")⟩,
      ⟨.context, strLit "4", [], some (strLit "4")⟩,
      ⟨.context, strLit "5", [], some (strLit "5")⟩,
      ⟨.context, strLit "6", [], some (strLit "6")⟩,
      ⟨.context, strLit "7", [], some (strLit "7")⟩,
      ⟨.add, strLit "x", [], some (strLit "x")⟩] = true ∧
    leadingCtx ⟨[(⟨.context, strLit "2", [], some (strLit "2")⟩ : Change),
      ⟨.context, strLit "3", [], some (strLit "3")⟩,
      ⟨.context, strLit "4", [], some (strLit "4")⟩,
      ⟨.context, strLit "5", [], some (strLit "5")⟩,
      ⟨.context, strLit "6", [], some (strLit "6")⟩,
      ⟨.context, strLit "7", [], some (strLit "7")⟩,
      ⟨.add, strLit "x", [], some (strLit "x")⟩]⟩ ≤ 6 ∧
    trailingCtx ⟨[(⟨.context, strLit "2", [], some (strLit "2")⟩ : Change),
      ⟨.context, strLit "3", [], some (strLit "3")⟩,
      ⟨.context, strLit "4", [], some (strLit "4")⟩,
      ⟨.context, strLit "5", [], some (strLit "5")⟩,
      ⟨.context, strLit "6", [], some (strLit "6")⟩,
      ⟨.context, strLit "7", [], some (strLit "7")⟩,
      ⟨.add, strLit "x", [], some (strLit "x")⟩]⟩ ≤ 6 := by
  have h := parse_unified_diff_spec c6TwoHunkDiff
    [⟨[(⟨.context, strLit "2", [], some (strLit "2")⟩ : Change),
      ⟨.context, strLit "3", [], some (strLit "3")⟩,
      ⟨.context, strLit "4", [], some (strLit "4")⟩,
      ⟨.context, strLit "5", [], some (strLit "5")⟩,
      ⟨.context, strLit "6", [], some (strLit "6")⟩,
      ⟨.context, strLit "7", [], some (strLit "7")⟩,
      ⟨.add, strLit "x", [], some (strLit "x")⟩]⟩,
     ⟨[⟨.context, strLit "a", [], some (strLit "a")⟩,
      ⟨.remove, strLit "b", [], some (strLit "b")⟩,
      ⟨.add, strLit "c", [], some (strLit "c")⟩]⟩] (by decide)
  refine ⟨h.1 _ (by simp), ?_, ?_⟩
  · exact (h.2 _ (by simp)).1
  · exact (h.2 _ (by simp)).2

end Cline
